import Mathlib

/-!
Shallow embedding of the document-lifecycle routes of
src/api/apps/document_app.py (ragflow): the registry / blob-store /
search-index / task-queue state they touch, and the route bodies
rm, run, run_v2, rename, change_status, change_parser and the
web_crawl ingestion core.

External service calls (DocumentService, File2DocumentService,
TaskService, queue_tasks, MINIO, ELASTICSEARCH) live outside the
source file; each such call is embedded as a function on an explicit
state, following the contracts in the design document where the
service body is not part of the source.
-/

namespace Ragflow

/-- The TaskStatus enumeration values (api.db.TaskStatus). -/
def UNSTART : String := "0"
/-- TaskStatus.RUNNING.value. -/
def RUNNING : String := "1"
/-- TaskStatus.CANCEL.value. -/
def CANCEL : String := "2"

/-- A row of the Document table; field `typ` embeds the `type` column,
`run` the run-state column, `status` the availability column.
`parser_config` is kept opaque (compared only for equality, as the
routes do). `process_duation` keeps the source's spelling. -/
structure Doc where
  id : String
  kb_id : String
  name : String
  location : String
  typ : String
  parser_id : String
  parser_config : String
  token_num : Int
  chunk_num : Int
  process_duation : Int
  run : String
  status : String
  progress : Int
  progress_msg : String
  size : Int
  deriving DecidableEq, Repr

/-- A Knowledgebase row (the fields the routes read). -/
structure KB where
  id : String
  tenant_id : String
  parser_id : String
  parser_config : String
  name : String
  deriving DecidableEq, Repr

/-- A Task row (the field the routes filter on). -/
structure TaskRow where
  id : String
  doc_id : String
  deriving DecidableEq, Repr

/-- One chunk entry of the per-tenant search index: `tenant_id` names
the index it lives in (search.index_name(tenant_id)), `doc_id` the
document it belongs to, `available_int` the soft-visibility flag. -/
structure IdxEntry where
  tenant_id : String
  doc_id : String
  available_int : Int
  deriving DecidableEq, Repr

/-- A File2Document mapping row. -/
structure F2D where
  document_id : String
  file_id : String
  deriving DecidableEq, Repr

/-- A File row (the fields rm and rename touch). -/
structure FileRow where
  id : String
  name : String
  source_type : String
  deriving DecidableEq, Repr

/-- A parse job submitted by queue_tasks: the document snapshot, the
tenant id stamped onto it, and the blob address (bucket, key). -/
structure Job where
  doc : Doc
  tenant_id : String
  bucket : String
  key : String
  deriving DecidableEq, Repr

/-- The combined backend state the routes act on: registry rows,
task rows, search-index entries, file rows and mappings, blob-store
keys (bucket, key) and the parse-job queue. -/
structure St where
  docs : List Doc
  kbs : List KB
  tasks : List TaskRow
  index : List IdxEntry
  f2ds : List F2D
  files : List FileRow
  blobs : List (String × String)
  queue : List Job
  deriving DecidableEq, Repr

/-- DocumentService.get_by_id: the registry row with this id, if any. -/
def getDoc (st : St) (id : String) : Option Doc :=
  st.docs.find? (fun d => d.id == id)

/-- KnowledgebaseService.get_by_id. -/
def getKb (st : St) (id : String) : Option KB :=
  st.kbs.find? (fun k => k.id == id)

/-- DocumentService.get_tenant_id. Modelled from the spec:
resolves the owning tenant through the Document to KnowledgeBase
ownership chain, None when the chain is broken (section 4.1). -/
def get_tenant_id (st : St) (doc_id : String) : Option String :=
  (getDoc st doc_id).bind (fun d => (getKb st d.kb_id).map (fun k => k.tenant_id))

/-- DocumentService.update_by_id applied through an update function;
the Bool is the truthiness of the affected-row count. -/
def updateDoc (st : St) (id : String) (f : Doc → Doc) : Bool × St :=
  (st.docs.any (fun d => d.id == id),
   { st with docs := st.docs.map (fun d => if d.id == id then f d else d) })

/-- ELASTICSEARCH.deleteByQuery(Q(match, doc_id), idxnm=index_name(tenant)):
removes every chunk entry of the document from that tenant's index. -/
def deleteIndexByDoc (st : St) (tenant doc_id : String) : St :=
  let idx2 := st.index.filter (fun e => !(e.tenant_id == tenant && e.doc_id == doc_id))
  { st with index := idx2 }

/-- ELASTICSEARCH.updateScriptByQuery setting available_int on every
chunk entry of the document in that tenant's index. -/
def patchIndexByDoc (st : St) (tenant doc_id : String) (avail : Int) : St :=
  let idx2 := st.index.map (fun e =>
    if e.tenant_id == tenant && e.doc_id == doc_id then
      { e with available_int := avail }
    else e)
  { st with index := idx2 }

/-- DocumentService.remove_document. Modelled from the spec: this
deletion path removes the registry row and automatically purges the
document's index entries (sections 3 and 9); the Bool is the
truthiness of the deleted-row count. -/
def remove_document (st : St) (doc : Doc) (tenant : String) : Bool × St :=
  let st1 := deleteIndexByDoc st tenant doc.id
  (st.docs.any (fun d => d.id == doc.id),
   { st1 with docs := st1.docs.filter (fun d => !(d.id == doc.id)) })

/-- File2DocumentService.get_minio_address. Modelled from the spec:
bucket is the knowledge-base id, key is the document's resolved
location (section 6); derivable only while the registry row exists. -/
def get_minio_address (st : St) (doc_id : String) : Option (String × String) :=
  (getDoc st doc_id).map (fun d => (d.kb_id, d.location))

/-- File2DocumentService.get_by_document_id. -/
def f2dsOf (st : St) (doc_id : String) : List F2D :=
  st.f2ds.filter (fun m => m.document_id == doc_id)

/-- queue_tasks(doc, bucket, name). Modelled from the spec:
fire-and-forget submission of one parse job for the document at the
given blob address (section 4.4). -/
def queue_tasks (st : St) (doc : Doc) (tenant bucket key : String) : St :=
  let j : Job := { doc := doc, tenant_id := tenant, bucket := bucket, key := key }
  { st with queue := st.queue ++ [j] }

/-- Outcome of one route invocation: get_json_result(data=True),
get_data_error_result, get_json_result with an error retcode, or
server_error_response of a raised exception. -/
inductive ApiResult where
  | ok
  | dataError (msg : String)
  | jsonError (msg : String)
  | serverError (msg : String)
  deriving DecidableEq, Repr

/-- Python str.lower(), character-wise (the names compared by the
routes are ASCII). -/
def strLower (s : String) : String := String.mk (s.data.map Char.toLower)

/-- Python str.endswith(t) / the anchored suffix regexes of the
routes. -/
def strEndsWith (s t : String) : Bool := t.data.isSuffixOf s.data

/-! ## The rm route (batch delete) -/

/-- Outcome of one iteration of rm's per-id loop: an early return
aborting the whole batch, a raised exception whose message is
appended to the error accumulator, or a clean pass. -/
inductive RmStep where
  | abort (r : ApiResult)
  | raised (msg : String)
  | okStep
  deriving DecidableEq, Repr

/-- The body of rm's per-id try block (document_app.py lines 341-362):
look up the document, resolve the tenant, capture the blob address,
remove the registry row, delete the mirrored File row and the
File2Document mapping, then remove the blob. Lookup, tenant and
removal failures take the early-return branches; an empty mapping
list makes the f2d subscript raise. -/
def rmOne (st : St) (doc_id : String) : RmStep × St :=
  match getDoc st doc_id with
  | none => (.abort (.dataError ("Document not found!")), st)
  | some doc =>
    match get_tenant_id st doc_id with
    | none => (.abort (.dataError ("Tenant not found!")), st)
    | some _tenant =>
      match get_minio_address st doc_id with
      | none => (.raised ("AttributeError"), st)
      | some (b, n) =>
        let rem := remove_document st doc _tenant
        if rem.1 then
          match f2dsOf rem.2 doc_id with
          | [] => (.raised ("list index out of range"), rem.2)
          | m :: _ =>
            let files2 := rem.2.files.filter (fun f =>
              !(f.source_type == ("knowledgebase") && f.id == m.file_id))
            let st2 := { rem.2 with files := files2 }
            let f2ds2 := st2.f2ds.filter (fun x => !(x.document_id == doc_id))
            let st3 := { st2 with f2ds := f2ds2 }
            let blobs2 := st3.blobs.filter (fun bk => !(bk == (b, n)))
            let st4 := { st3 with blobs := blobs2 }
            (.okStep, st4)
        else (.abort (.dataError ("Database error (Document removal)!")), rem.2)

/-- rm's loop over doc_ids with its error accumulator string. -/
def rmLoop (st : St) (ids : List String) (errors : String) : ApiResult × St :=
  match ids with
  | [] => (if errors == ("") then .ok else .jsonError errors, st)
  | id :: rest =>
    match rmOne st id with
    | (.abort r, st1) => (r, st1)
    | (.raised m, st1) => rmLoop st1 rest (errors ++ m)
    | (.okStep, st1) => rmLoop st1 rest errors

/-- The rm route (document_app.py lines 330-367). The FileService
root-folder bootstrap before the loop touches no state the claims
mention and is omitted. -/
def rm (st : St) (doc_ids : List String) : ApiResult × St :=
  rmLoop st doc_ids ("")

/-! ## The run route -/

/-- The run route (document_app.py lines 419-448): for each id,
resolve the tenant (early return when missing), clear the document's
index entries unconditionally, and when the trigger is
TaskStatus.RUNNING additionally clear its Task rows, re-read the
document and enqueue one parse job at its current blob address.
No field of the document row is ever written. -/
def runLoop (st : St) (ids : List String) (trigger : String) : ApiResult × St :=
  match ids with
  | [] => (.ok, st)
  | id :: rest =>
    match get_tenant_id st id with
    | none => (.dataError ("Tenant not found!"), st)
    | some tenant =>
      let st1 := deleteIndexByDoc st tenant id
      if trigger == RUNNING then
        let st2 := { st1 with tasks := st1.tasks.filter (fun t => !(t.doc_id == id)) }
        match getDoc st2 id with
        | none => (.serverError ("AttributeError"), st2)
        | some doc =>
          match get_minio_address st2 doc.id with
          | none => (.serverError ("AttributeError"), st2)
          | some (bucket, key) =>
            runLoop (queue_tasks st2 doc tenant bucket key) rest trigger
      else
        runLoop st1 rest trigger

/-- Entry point of the run route. -/
def runRoute (st : St) (ids : List String) (trigger : String) : ApiResult × St :=
  runLoop st ids trigger

/-! ## The rename route -/

/-- Model of pathlib.PurePath(s).suffix on a bare filename: the part
of the name from its last dot on, provided that dot is neither the
leading character nor the trailing one; empty otherwise. -/
def pathSuffix (s : String) : String :=
  let cs := s.data
  let n := cs.length
  let dots := (List.range n).filter (fun i => cs.getD i ' ' == '.')
  match dots.getLast? with
  | some i => if 0 < i && i < n - 1 then String.mk (cs.drop i) else ("")
  | none => ("")

/-- The rename route (document_app.py lines 451-483): reject an
extension change, reject a name already used in the knowledge base
(the query does not exclude the renamed document itself), update the
registry row, then propagate the name to the mirrored File row when
a File2Document mapping exists. -/
def renameRoute (st : St) (doc_id new_name : String) : ApiResult × St :=
  match getDoc st doc_id with
  | none => (.dataError ("Document not found!"), st)
  | some doc =>
    if !(pathSuffix (strLower new_name) == pathSuffix (strLower doc.name)) then
      (.jsonError ("The extension of file can't be changed"), st)
    else if st.docs.any (fun d => d.name == new_name && d.kb_id == doc.kb_id) then
      (.dataError ("Duplicated document name in the same knowledgebase."), st)
    else
      let u := updateDoc st doc_id (fun d => { d with name := new_name })
      if u.1 then
        match f2dsOf u.2 doc_id with
        | [] => (.ok, u.2)
        | m :: _ =>
          match u.2.files.find? (fun f => f.id == m.file_id) with
          | none => (.serverError ("AttributeError"), u.2)
          | some file =>
            let files2 := u.2.files.map (fun f =>
              if f.id == file.id then { f with name := new_name } else f)
            (.ok, { u.2 with files := files2 })
      else (.dataError ("Database error (Document rename)!"), u.2)

/-! ## The change_status route -/

/-- The change_status route (document_app.py lines 266-305). The
source's invalid-status branch constructs an error response but is
missing the return, so the value is discarded (embedded as the
unused binding below) and execution falls through to the update. -/
def change_status (st : St) (doc_id status : String) : ApiResult × St :=
  let _unreturned : Option ApiResult :=
    if !(status == ("0") || status == ("1")) then
      some (.jsonError ("Status must be either 0 or 1!"))
    else none
  match getDoc st doc_id with
  | none => (.dataError ("Document not found!"), st)
  | some doc =>
    match getKb st doc.kb_id with
    | none => (.dataError ("Can't find this knowledgebase!"), st)
    | some kb =>
      let (e1, st1) := updateDoc st doc_id (fun d => { d with status := status })
      if e1 then
        if status == ("0") then
          (.ok, patchIndexByDoc st1 kb.tenant_id doc_id 0)
        else
          (.ok, patchIndexByDoc st1 kb.tenant_id doc_id 1)
      else (.dataError ("Database error (Document update)!"), st1)

/-! ## The change_parser route -/

/-- DocumentService.increment_chunk_num. Modelled from the spec:
atomic signed-delta adjustment of the three counters (section 4.1);
the Bool is the truthiness of the affected-row count. -/
def increment_chunk_num (st : St) (doc_id : String) (_kb_id : String)
    (dt dc dd : Int) : Bool × St :=
  updateDoc st doc_id (fun d =>
    { d with token_num := d.token_num + dt,
             chunk_num := d.chunk_num + dc,
             process_duation := d.process_duation + dd })

/-- DocumentService.update_parser_config. Modelled from the spec:
applies the newly supplied parser configuration to the row. -/
def update_parser_config (st : St) (doc_id : String) (cfg : String) : St :=
  (updateDoc st doc_id (fun d => { d with parser_config := cfg })).2

/-- The change_parser route (document_app.py lines 511-551): no-op
when the parser id matches case-insensitively and the config is
absent or equal; rejected for visual documents and presentation
filenames; otherwise reset the row (parser id, progress, run state),
apply the new config when supplied, and when the document has
positive token_num subtract the current counter totals and purge its
index entries. -/
def change_parser_op (st : St) (doc_id pid : String) (cfg : Option String) :
    ApiResult × St :=
  match getDoc st doc_id with
  | none => (.dataError ("Document not found!"), st)
  | some doc =>
    let noop : Bool :=
      if strLower doc.parser_id == strLower pid then
        match cfg with
        | some c => c == doc.parser_config
        | none => true
      else false
    if noop then (.ok, st)
    else if doc.typ == ("visual") || strEndsWith doc.name (".ppt") ||
        strEndsWith doc.name (".pptx") || strEndsWith doc.name (".pages") then
      (.dataError ("Not supported yet!"), st)
    else
      let (e1, st1) := updateDoc st doc.id (fun d =>
        { d with parser_id := pid, progress := 0, progress_msg := (""),
                 run := UNSTART })
      if e1 then
        let st2 := match cfg with
          | some c => update_parser_config st1 doc.id c
          | none => st1
        if doc.token_num > 0 then
          let (e2, st3) := increment_chunk_num st2 doc.id doc.kb_id
            (-doc.token_num) (-doc.chunk_num) (-doc.process_duation)
          if e2 then
            match get_tenant_id st3 doc_id with
            | none => (.dataError ("Tenant not found!"), st3)
            | some t => (.ok, deleteIndexByDoc st3 t doc_id)
          else (.dataError ("Document not found!"), st3)
        else (.ok, st2)
      else (.dataError ("Document not found!"), st1)

/-! ## The web_crawl ingestion core -/

/-- The blob-key probe loop of web_crawl (document_app.py lines
122-124): append an underscore while the key already exists in the
bucket. The loop is embedded with explicit fuel; the route invokes
it with more fuel than the bucket holds keys, which suffices. -/
def probeLoc (store : List String) : String → Nat → String
  | loc, 0 => loc
  | loc, fuel + 1 =>
    if store.contains loc then probeLoc store (loc ++ ("_")) fuel else loc

/-- An observable backend effect of the web_crawl ingestion core, in
the order performed. -/
inductive CrawlEvent where
  | putBlob (bucket key : String)
  | insertDoc (id location : String)
  deriving DecidableEq, Repr

/-- The keys currently present in one bucket of the blob store. -/
def bucketKeys (st : St) (bucket : String) : List String :=
  st.blobs.filterMap (fun bk => if bk.1 == bucket then some bk.2 else none)

/-- The try block of web_crawl (document_app.py lines 113-145), after
the external duplicate_name and filename_type calls whose results
arrive as `filename` and `filetype`: reject unsupported types, probe
a collision-free blob key, write the blob, insert the registry row
referencing exactly that key (parser id overridden for visual, aural
and presentation content), and mirror a File row. Returns the route
outcome, the new state and the ordered effect trace. -/
def web_crawl_core (st : St) (kb : KB) (docId fileId filename filetype : String)
    (blobSize : Int) : ApiResult × St × List CrawlEvent :=
  if filetype == ("other") then
    (.serverError ("This type of file has not been supported yet!"), st, [])
  else
    let keys := bucketKeys st kb.id
    let location := probeLoc keys filename (keys.length + 1)
    let st1 := { st with blobs := st.blobs ++ [(kb.id, location)] }
    let pid0 := kb.parser_id
    let pid1 := if filetype == ("visual") then ("picture") else pid0
    let pid2 := if filetype == ("aural") then ("audio") else pid1
    let pid3 := if strEndsWith filename (".ppt") || strEndsWith filename (".pptx") ||
        strEndsWith filename (".pages") then ("presentation") else pid2
    let doc : Doc :=
      { id := docId, kb_id := kb.id, name := filename, location := location,
        typ := filetype, parser_id := pid3, parser_config := kb.parser_config,
        token_num := 0, chunk_num := 0, process_duation := 0,
        run := UNSTART, status := ("1"), progress := 0, progress_msg := (""),
        size := blobSize }
    let st2 := { st1 with docs := st1.docs ++ [doc] }
    let file : FileRow := { id := fileId, name := filename,
                            source_type := ("knowledgebase") }
    let m : F2D := { document_id := docId, file_id := fileId }
    let st3 := { st2 with files := st2.files ++ [file], f2ds := st2.f2ds ++ [m] }
    (.ok, st3, [CrawlEvent.putBlob kb.id location,
                CrawlEvent.insertDoc docId location])

/-! ## The run_v2 route (external ingestion) -/

/-- A float value as Python builds it from the decimal literals these
jobs carry: the value mant / 10 ^ scale. -/
structure PyFloat where
  mant : Int
  scale : Nat
  deriving DecidableEq, Repr

/-- A dynamically typed scalar of the incoming job JSON: an integer,
a float or a string. -/
inductive PVal where
  | pInt (n : Int)
  | pFloat (f : PyFloat)
  | pStr (s : String)
  deriving DecidableEq, Repr

/-- Integer division truncating toward zero. -/
def intTruncDiv (a : Int) (b : Nat) : Int :=
  if 0 ≤ a then ((a.toNat / b : Nat) : Int) else -(((-a).toNat / b : Nat) : Int)

/-- Truncation toward zero, the rounding of Python int(float). -/
def truncF (f : PyFloat) : Int := intTruncDiv f.mant (10 ^ f.scale)

/-- Value of a digit string. -/
def digitsVal (cs : List Char) : Nat :=
  cs.foldl (fun a c => a * 10 + (c.toNat - 48)) 0

/-- Python int(str) on plain signed decimal literals (None embeds
the raised ValueError on anything else). -/
def strToInt (s : String) : Option Int :=
  match s.data with
  | [] => none
  | c :: rest =>
    if c == '-' then
      if 0 < rest.length && rest.all Char.isDigit then
        some (-(digitsVal rest : Int))
      else none
    else if c == '+' then
      if 0 < rest.length && rest.all Char.isDigit then
        some ((digitsVal rest : Int))
      else none
    else
      if (c :: rest).all Char.isDigit then
        some ((digitsVal (c :: rest) : Int))
      else none

/-- Python int(x) on a job scalar: identity on integers, truncation
on floats, decimal parse on strings (None embeds the raised
ValueError on a non-integer string). -/
def pyInt : PVal → Option Int
  | .pInt n => some n
  | .pFloat f => some (truncF f)
  | .pStr s => strToInt s

/-- Split a character list at the dots. -/
def splitDot : List Char → List (List Char)
  | [] => [[]]
  | c :: rest =>
    match splitDot rest with
    | [] => [[]]
    | h :: t => if c == '.' then [] :: h :: t else (c :: h) :: t

/-- Python float(s) on plain decimal literals: optional sign, digits,
optional dot and fraction digits. Exponent and special forms are not
used by the jobs this route receives and are not modelled. -/
def parseDec (s : String) : Option PyFloat :=
  let p : Bool × List Char :=
    match s.data with
    | [] => (false, [])
    | c :: t =>
      if c == '-' then (true, t)
      else if c == '+' then (false, t)
      else (false, c :: t)
  let sign : Int := if p.1 then -1 else 1
  match splitDot p.2 with
  | [a] =>
    if 0 < a.length && a.all Char.isDigit then
      some ⟨sign * (digitsVal a : Int), 0⟩
    else none
  | [a, b] =>
    if (0 < a.length || 0 < b.length) && a.all Char.isDigit &&
        b.all Char.isDigit then
      some ⟨sign * ((digitsVal a : Int) * ((10 : Int) ^ b.length) +
        (digitsVal b : Int)), b.length⟩
    else none
  | _ => none

/-- Python float(x) on a job scalar. -/
def pyFloat : PVal → Option PyFloat
  | .pInt n => some ⟨n, 0⟩
  | .pFloat f => some f
  | .pStr s => parseDec s

/-- The raptor sub-object of parser_config (the optional
hierarchical-summarization option), each field optional. -/
structure RaptorConf where
  max_cluster : Option PVal
  max_token : Option PVal
  random_seed : Option PVal
  threshold : Option PVal
  deriving DecidableEq, Repr

/-- The parser_config object as run_v2 reads it: the token-budget
field and the optional raptor sub-object. -/
structure ParserConf where
  chunk_token_num : Option PVal
  raptor : Option RaptorConf
  deriving DecidableEq, Repr

/-- Apply a coercion to a field only when the key is present; the
outer None embeds a raised coercion exception. -/
def coerceField (f : PVal → Option PVal) : Option PVal → Option (Option PVal)
  | none => some none
  | some v => (f v).map some

/-- int(...) as a field coercion. -/
def intField (v : PVal) : Option PVal := (pyInt v).map PVal.pInt

/-- float(...) as a field coercion. -/
def floatField (v : PVal) : Option PVal := (pyFloat v).map PVal.pFloat

/-- The in-place casts on the raptor sub-fields
(document_app.py lines 394-401). -/
def coerceRaptor (r : RaptorConf) : Option RaptorConf := do
  let mc ← coerceField intField r.max_cluster
  let mt ← coerceField intField r.max_token
  let rs ← coerceField intField r.random_seed
  let th ← coerceField floatField r.threshold
  some { max_cluster := mc, max_token := mt, random_seed := rs, threshold := th }

/-- The in-place casts on parser_config (document_app.py lines
390-401): chunk_token_num to int, then the raptor sub-fields. -/
def coerceConf (pc : ParserConf) : Option ParserConf := do
  let ctn ← coerceField intField pc.chunk_token_num
  match pc.raptor with
  | none => some { chunk_token_num := ctn, raptor := none }
  | some r =>
    (coerceRaptor r).map (fun r2 => { chunk_token_num := ctn, raptor := some r2 })

/-- One entry of the documents array of a run_v2 request. -/
structure DocV2 where
  id : String
  url : String
  parser_id : Option String
  parser_config : Option ParserConf
  deriving DecidableEq, Repr

/-- The job dict run_v2 hands to queue_tasks_v2: the request minus
its documents array, plus the per-document fields and the language
stamped to English. -/
structure JobV2 where
  doc_id : String
  url : String
  name : String
  parser_id : Option String
  parser_config : Option ParserConf
  language : String
  tenant_id : String
  kb_id : String
  deriving DecidableEq, Repr

/-- The run_v2 route (document_app.py lines 379-415): per document,
clear its index entries, coerce the numeric parser_config sub-fields
in place, build the normalized job and submit it. queue_tasks_v2 is
modelled from the spec as fire-and-forget submission (section 4.4);
the submitted jobs are returned in order. A coercion exception
aborts the loop, keeping the jobs already submitted. -/
def run_v2Loop (st : St) (tenant_id kb_id : String) (ds : List DocV2) :
    ApiResult × St × List JobV2 :=
  match ds with
  | [] => (.ok, st, [])
  | d :: rest =>
    let st1 := deleteIndexByDoc st tenant_id d.id
    let cfg2 : Option (Option ParserConf) :=
      match d.parser_config with
      | none => some none
      | some pc => (coerceConf pc).map some
    match cfg2 with
    | none => (.serverError ("ValueError: invalid literal for int"), st1, [])
    | some pcOk =>
      let job : JobV2 :=
        { doc_id := d.id, url := d.url, name := d.url, parser_id := d.parser_id,
          parser_config := pcOk, language := ("English"),
          tenant_id := tenant_id, kb_id := kb_id }
      let res := run_v2Loop st1 tenant_id kb_id rest
      (res.1, res.2.1, job :: res.2.2)

/-! ## Generic list lemmas used by the route proofs -/

theorem find?_filter_keep {α} (p q : α → Bool) (l : List α)
    (h : ∀ x, p x = true → q x = true) :
    (l.filter q).find? p = l.find? p := by
  induction l with
  | nil => rfl
  | cons a t ih =>
    by_cases hp : p a = true
    · rw [List.filter_cons, if_pos (h a hp), List.find?_cons_of_pos _ hp,
        List.find?_cons_of_pos _ hp]
    · by_cases hq : q a = true
      · rw [List.filter_cons, if_pos hq, List.find?_cons_of_neg _ hp,
          List.find?_cons_of_neg _ hp, ih]
      · rw [List.filter_cons, if_neg hq, List.find?_cons_of_neg _ hp, ih]

theorem find?_map_upd {α} (p : α → Bool) (f : α → α) (l : List α)
    (hpf : ∀ x, p (f x) = p x) :
    (l.map (fun x => if p x then f x else x)).find? p = (l.find? p).map f := by
  induction l with
  | nil => rfl
  | cons a t ih =>
    by_cases hp : p a = true
    · have : p (f a) = true := by rw [hpf a]; exact hp
      rw [List.map_cons, if_pos hp, List.find?_cons_of_pos _ this,
        List.find?_cons_of_pos _ hp]
      rfl
    · rw [List.map_cons, if_neg hp, List.find?_cons_of_neg _ (by simp [hp]),
        List.find?_cons_of_neg _ hp, ih]

/-! ## Facts about the registry lookups -/

theorem getDoc_id (st : St) (id : String) (d : Doc) (h : getDoc st id = some d) :
    d.id = id := by
  have h2 : st.docs.find? (fun x => x.id == id) = some d := h
  have := List.find?_some h2
  simpa using this

theorem getDoc_mem (st : St) (id : String) (d : Doc) (h : getDoc st id = some d) :
    d ∈ st.docs :=
  List.mem_of_find?_eq_some h

theorem docs_any_of_getDoc (st : St) (id : String) (d : Doc)
    (h : getDoc st id = some d) :
    st.docs.any (fun x => x.id == id) = true := by
  have h2 : st.docs.find? (fun x => x.id == id) = some d := h
  have h3 := List.find?_some h2
  exact List.any_eq_true.mpr ⟨d, List.mem_of_find?_eq_some h2, h3⟩

theorem getDoc_update (st : St) (id : String) (f : Doc → Doc)
    (hf : ∀ d, (f d).id = d.id) :
    getDoc (updateDoc st id f).2 id = (getDoc st id).map f := by
  show (st.docs.map fun d => if d.id == id then f d else d).find?
      (fun d => d.id == id) = _
  rw [find?_map_upd (fun d => d.id == id) f st.docs
    (fun x => by show ((f x).id == id) = (x.id == id); rw [hf x])]
  rfl

/-! ## Shared concrete state for witnesses and counterexamples -/

/-- A concrete document row used by witnesses: nonzero counters, run
state UNSTART, availability 1. -/
def wDoc : Doc :=
  ⟨"Y", "kb1", "y.pdf", "y.pdf", "pdf", "naive", "cfg", 100, 10, 5,
   "0", "1", 0, "", 7⟩

/-- The knowledge base owning wDoc. -/
def wKb : KB := ⟨"kb1", "t1", "naive", "cfg", "kb"⟩

/-- A concrete backend state: one document with a task row, one index
entry, a mirrored file with its mapping, and its blob. -/
def wSt : St :=
  ⟨[wDoc], [wKb], [⟨"tsk1", "Y"⟩], [⟨"t1", "Y", 1⟩], [⟨"Y", "f1"⟩],
   [⟨"f1", "y.pdf", "knowledgebase"⟩], [("kb1", "y.pdf")], []⟩

/-- A second document in the same knowledge base with no
File2Document mapping. -/
def wDoc2 : Doc :=
  ⟨"Z", "kb1", "z2.pdf", "z2.pdf", "pdf", "naive", "cfg", 0, 0, 0,
   "0", "1", 0, "", 3⟩

/-- A state with two documents of which only the first has a
mirrored-file mapping. -/
def wSt2 : St :=
  ⟨[wDoc, wDoc2], [wKb], [], [⟨"t1", "Y", 1⟩], [⟨"Y", "f1"⟩],
   [⟨"f1", "y.pdf", "knowledgebase"⟩], [("kb1", "y.pdf"), ("kb1", "z2.pdf")], []⟩

/-! ## C9: change_status with an invalid status value -/

/-- C9: for every change_status request whose status value is neither
0 nor 1, the operation is not rejected: because the invalid-status
branch of the source builds its error result without returning it,
the route still returns ok, updates the registry row with the raw
value, and issues the availability patch (available_int set to 1,
the branch taken for every status other than 0). -/
theorem change_status_invalid_value_not_rejected
    (st : St) (doc_id s : String) (doc : Doc) (kb : KB)
    (hdoc : getDoc st doc_id = some doc) (hkb : getKb st doc.kb_id = some kb)
    (h0 : s ≠ ("0")) (h1 : s ≠ ("1")) :
    change_status st doc_id s =
      (.ok, patchIndexByDoc
        (updateDoc st doc_id (fun d => { d with status := s })).2
        kb.tenant_id doc_id 1) ∧
    getDoc (change_status st doc_id s).2 doc_id = some { doc with status := s } := by
  have hany := docs_any_of_getDoc st doc_id doc hdoc
  have heq : change_status st doc_id s =
      (.ok, patchIndexByDoc
        (updateDoc st doc_id (fun d => { d with status := s })).2
        kb.tenant_id doc_id 1) := by
    simp only [change_status, hdoc, hkb, updateDoc, hany]
    simp [beq_iff_eq, h0, h1]
  refine ⟨heq, ?_⟩
  rw [heq]
  show (st.docs.map fun d => if d.id == doc_id then { d with status := s } else d).find?
      (fun d => d.id == doc_id) = _
  rw [find?_map_upd (fun d => d.id == doc_id) (fun d => { d with status := s })
    st.docs (fun x => rfl)]
  rw [show (getDoc st doc_id) = st.docs.find? (fun d => d.id == doc_id) from rfl] at hdoc
  rw [hdoc]
  rfl

/-- Witness for C9 at a concrete state with status value 2. -/
theorem change_status_invalid_value_witness :
    getDoc wSt ("Y") = some wDoc ∧ getKb wSt wDoc.kb_id = some wKb ∧
    ("2" : String) ≠ ("0") ∧ ("2" : String) ≠ ("1") ∧
    (change_status wSt ("Y") ("2") =
      (.ok, patchIndexByDoc
        (updateDoc wSt ("Y") (fun d => { d with status := ("2") })).2
        wKb.tenant_id ("Y") 1) ∧
     getDoc (change_status wSt ("Y") ("2")).2 ("Y") =
       some { wDoc with status := ("2") }) :=
  ⟨by decide, by decide, by decide, by decide,
   change_status_invalid_value_not_rejected wSt ("Y") ("2") wDoc wKb
     (by decide) (by decide) (by decide) (by decide)⟩

/-! ## C6: change_parser no-op when nothing changes -/

/-- C6: when the requested parser id equals the stored one and the
parser_config is either not supplied or equal to the stored config,
change_parser returns ok and leaves the whole backend state (the
document row, its counters and the index) untouched. -/
theorem change_parser_unchanged_noop
    (st : St) (doc_id : String) (doc : Doc) (cfg : Option String)
    (hdoc : getDoc st doc_id = some doc)
    (hcfg : cfg = none ∨ cfg = some doc.parser_config) :
    change_parser_op st doc_id doc.parser_id cfg = (.ok, st) := by
  rcases hcfg with h | h <;> subst h <;> simp [change_parser_op, hdoc]

/-- Witness for C6 at a concrete state, no config supplied. -/
theorem change_parser_unchanged_noop_witness :
    getDoc wSt ("Y") = some wDoc ∧
    change_parser_op wSt ("Y") wDoc.parser_id none = (.ok, wSt) :=
  ⟨by decide, change_parser_unchanged_noop wSt ("Y") wDoc none (by decide)
    (Or.inl rfl)⟩

/-! ## C10: rename to the document's own current name -/

/-- C10: renaming a document to its own current name fails with the
duplicate-name error instead of succeeding as a no-op, because the
uniqueness query over the knowledge base does not exclude the
document being renamed; the state is unchanged. -/
theorem rename_to_own_name_duplicate
    (st : St) (doc_id : String) (doc : Doc)
    (hdoc : getDoc st doc_id = some doc) :
    renameRoute st doc_id doc.name =
      (.dataError ("Duplicated document name in the same knowledgebase."), st) := by
  have hany : st.docs.any (fun d => d.name == doc.name && d.kb_id == doc.kb_id) = true :=
    List.any_eq_true.mpr ⟨doc, getDoc_mem st doc_id doc hdoc, by simp⟩
  simp [renameRoute, hdoc, hany]

/-- Witness for C10 at a concrete state. -/
theorem rename_to_own_name_duplicate_witness :
    getDoc wSt ("Y") = some wDoc ∧
    renameRoute wSt ("Y") wDoc.name =
      (.dataError ("Duplicated document name in the same knowledgebase."), wSt) :=
  ⟨by decide, rename_to_own_name_duplicate wSt ("Y") wDoc (by decide)⟩

/-! ## C4: change_parser invalidation of old content -/

/-- The document row as a successful non-noop change_parser leaves
it: requested parser id, cleared progress, run state UNSTART, the
newly supplied config when present, and the three counters at zero
(for a document whose previous totals were the deltas subtracted). -/
def invalidatedDoc (doc : Doc) (pid : String) (cfg : Option String) : Doc :=
  { doc with parser_id := pid, progress := 0, progress_msg := (""), run := UNSTART, parser_config := cfg.getD doc.parser_config, token_num := 0, chunk_num := 0, process_duation := 0 }

/-- C4: a successful change_parser to a different parser id, on a
document with positive token_num, zeroes the three counters (the
negative delta equals the current totals), resets the run state to
UNSTART with cleared progress, and purges the document's index
entries in its tenant's index; the job queue is untouched, so the
purge happens before any new parse could be queued. -/
theorem change_parser_invalidation
    (st : St) (doc_id pid : String) (cfg : Option String) (doc : Doc) (kb : KB)
    (hdoc : getDoc st doc_id = some doc)
    (hne : strLower doc.parser_id ≠ strLower pid)
    (hvis : doc.typ ≠ ("visual"))
    (hppt : strEndsWith doc.name (".ppt") = false)
    (hpptx : strEndsWith doc.name (".pptx") = false)
    (hpages : strEndsWith doc.name (".pages") = false)
    (htok : 0 < doc.token_num)
    (hkb : getKb st doc.kb_id = some kb) :
    ∃ st2, change_parser_op st doc_id pid cfg = (.ok, st2) ∧
      getDoc st2 doc_id = some (invalidatedDoc doc pid cfg) ∧
      (∀ e ∈ st2.index, ¬(e.tenant_id = kb.tenant_id ∧ e.doc_id = doc_id)) ∧
      st2.queue = st.queue ∧ st2.tasks = st.tasks := by
  have hid : doc.id = doc_id := getDoc_id st doc_id doc hdoc
  have hne' : (strLower doc.parser_id == strLower pid) = false :=
    beq_eq_false_iff_ne.mpr hne
  have hvis' : (doc.typ == ("visual")) = false := beq_eq_false_iff_ne.mpr hvis
  -- the first registry update
  have hany1 : st.docs.any (fun d => d.id == doc_id) = true :=
    docs_any_of_getDoc st doc_id doc hdoc
  -- state after the first update
  set f1 : Doc → Doc := fun d => { d with parser_id := pid, progress := 0, progress_msg := (""), run := UNSTART } with hf1def
  have hf1 : ∀ d : Doc, (f1 d).id = d.id := fun _ => rfl
  set st1 : St := (updateDoc st doc_id f1).2 with hst1
  have hdoc1 : getDoc st1 doc_id = some (f1 doc) := by
    rw [hst1, getDoc_update st doc_id f1 hf1, hdoc]; rfl
  rcases cfg with _ | c
  · -- no parser_config supplied
    have hany2 : st1.docs.any (fun d => d.id == doc_id) = true :=
      docs_any_of_getDoc st1 doc_id (f1 doc) hdoc1
    set f3 : Doc → Doc := fun d => { d with token_num := d.token_num + -doc.token_num, chunk_num := d.chunk_num + -doc.chunk_num, process_duation := d.process_duation + -doc.process_duation } with hf3def
    set st3 : St := (updateDoc st1 doc_id f3).2 with hst3
    have hdoc3 : getDoc st3 doc_id = some (f3 (f1 doc)) := by
      rw [hst3, getDoc_update st1 doc_id f3 (fun _ => rfl), hdoc1]; rfl
    have hten3 : get_tenant_id st3 doc_id = some kb.tenant_id := by
      show (getDoc st3 doc_id).bind _ = _
      rw [hdoc3]
      show (getKb st3 (f3 (f1 doc)).kb_id).map _ = _
      have : (f3 (f1 doc)).kb_id = doc.kb_id := rfl
      rw [this]
      have hkb3 : getKb st3 doc.kb_id = getKb st doc.kb_id := rfl
      rw [hkb3, hkb]; rfl
    refine ⟨deleteIndexByDoc st3 kb.tenant_id doc_id, ?_, ?_, ?_, rfl, rfl⟩
    · show change_parser_op st doc_id pid none = _
      rw [change_parser_op, hdoc]
      simp only [hne', Bool.false_eq_true, if_false, hvis', hppt, hpptx, hpages,
        Bool.or_self, Bool.false_or, hid, hany1, if_true, htok, if_pos htok]
      rw [← hf1def, ← hst1]
      simp only [increment_chunk_num, hany2, ← hf3def, ← hst3, hten3, if_true]
      have he1 : (updateDoc st doc_id f1).1 = true := hany1
      have he2 : (updateDoc st1 doc_id f3).1 = true := hany2
      rw [he1, he2]
      simp [hten3]
    · show getDoc st3 doc_id = _
      rw [hdoc3]
      refine congrArg some ?_
      simp only [hf3def, hf1def, invalidatedDoc]
      cases doc
      simp_all
    · intro e he hcontra
      have hmem : e ∈ st3.index.filter (fun e =>
          !(e.tenant_id == kb.tenant_id && e.doc_id == doc_id)) := he
      have := (List.mem_filter.mp hmem).2
      simp [hcontra.1, hcontra.2] at this
  · -- parser_config supplied
    have hdoc2 : getDoc (update_parser_config st1 doc_id c) doc_id =
        some { f1 doc with parser_config := c } := by
      show getDoc (updateDoc st1 doc_id (fun d => { d with parser_config := c })).2 doc_id = _
      rw [getDoc_update st1 doc_id (fun d => { d with parser_config := c }) (fun _ => rfl), hdoc1]
      rfl
    set st2 : St := update_parser_config st1 doc_id c with hst2
    have hany2 : st2.docs.any (fun d => d.id == doc_id) = true :=
      docs_any_of_getDoc st2 doc_id _ hdoc2
    set f3 : Doc → Doc := fun d => { d with token_num := d.token_num + -doc.token_num, chunk_num := d.chunk_num + -doc.chunk_num, process_duation := d.process_duation + -doc.process_duation } with hf3def
    set st3 : St := (updateDoc st2 doc_id f3).2 with hst3
    have hdoc3 : getDoc st3 doc_id = some (f3 { f1 doc with parser_config := c }) := by
      rw [hst3, getDoc_update st2 doc_id f3 (fun _ => rfl), hst2, hdoc2]; rfl
    have hten3 : get_tenant_id st3 doc_id = some kb.tenant_id := by
      show (getDoc st3 doc_id).bind _ = _
      rw [hdoc3]
      show (getKb st3 (f3 { f1 doc with parser_config := c }).kb_id).map _ = _
      have : (f3 { f1 doc with parser_config := c }).kb_id = doc.kb_id := rfl
      rw [this]
      have hkb3 : getKb st3 doc.kb_id = getKb st doc.kb_id := rfl
      rw [hkb3, hkb]; rfl
    refine ⟨deleteIndexByDoc st3 kb.tenant_id doc_id, ?_, ?_, ?_, rfl, rfl⟩
    · show change_parser_op st doc_id pid (some c) = _
      rw [change_parser_op, hdoc]
      simp only [hne', Bool.false_eq_true, if_false, hvis', hppt, hpptx, hpages,
        Bool.or_self, Bool.false_or, hid, hany1, if_true, htok, if_pos htok]
      rw [← hf1def, ← hst1]
      simp only [update_parser_config, increment_chunk_num]
      have hst2b : (updateDoc st1 doc_id (fun d => { d with parser_config := c })).2 = st2 := rfl
      have he1 : (updateDoc st doc_id f1).1 = true := hany1
      have he2 : (updateDoc st2 doc_id f3).1 = true := hany2
      rw [hst2b, ← hf3def, ← hst3, he1, he2, hten3]
      simp
    · show getDoc st3 doc_id = _
      rw [hdoc3]
      refine congrArg some ?_
      simp only [hf3def, hf1def, invalidatedDoc]
      cases doc
      simp_all
    · intro e he hcontra
      have hmem : e ∈ st3.index.filter (fun e =>
          !(e.tenant_id == kb.tenant_id && e.doc_id == doc_id)) := he
      have := (List.mem_filter.mp hmem).2
      simp [hcontra.1, hcontra.2] at this

/-- Witness for C4: a concrete change_parser from naive to qa on a
document with token_num 100 and one index entry. -/
theorem change_parser_invalidation_witness :
    getDoc wSt ("Y") = some wDoc ∧
    strLower wDoc.parser_id ≠ strLower ("qa") ∧
    wDoc.typ ≠ ("visual") ∧
    strEndsWith wDoc.name (".ppt") = false ∧
    strEndsWith wDoc.name (".pptx") = false ∧
    strEndsWith wDoc.name (".pages") = false ∧
    0 < wDoc.token_num ∧
    getKb wSt wDoc.kb_id = some wKb ∧
    (∃ st2, change_parser_op wSt ("Y") ("qa") none = (.ok, st2) ∧
      getDoc st2 ("Y") = some (invalidatedDoc wDoc ("qa") none) ∧
      (∀ e ∈ st2.index, ¬(e.tenant_id = wKb.tenant_id ∧ e.doc_id = ("Y"))) ∧
      st2.queue = wSt.queue ∧ st2.tasks = wSt.tasks) :=
  ⟨by decide, by decide, by decide, by decide, by decide, by decide, by decide,
   by decide,
   change_parser_invalidation wSt ("Y") ("qa") none wDoc wKb (by decide)
     (by decide) (by decide) (by decide) (by decide) (by decide) (by decide)
     (by decide)⟩

/-! ## C5: rename -/

/-- C5: rename fails with the extension error when the new name's
suffix differs from the current one, fails with the duplicate-name
error when another document of the knowledge base already carries
the new name (both leaving the state unchanged); otherwise it
renames the registry row and propagates the new name to the mirrored
File row exactly when a File2Document mapping exists, leaving the
File table untouched when none does. -/
theorem rename_spec
    (st : St) (doc_id new_name : String) (doc : Doc)
    (hdoc : getDoc st doc_id = some doc) :
    (pathSuffix (strLower new_name) ≠ pathSuffix (strLower doc.name) →
      renameRoute st doc_id new_name =
        (.jsonError ("The extension of file can't be changed"), st)) ∧
    (pathSuffix (strLower new_name) = pathSuffix (strLower doc.name) →
     (∃ d ∈ st.docs, d.id ≠ doc.id ∧ d.kb_id = doc.kb_id ∧ d.name = new_name) →
      renameRoute st doc_id new_name =
        (.dataError ("Duplicated document name in the same knowledgebase."), st)) ∧
    (pathSuffix (strLower new_name) = pathSuffix (strLower doc.name) →
     (∀ d ∈ st.docs, d.kb_id = doc.kb_id → d.name ≠ new_name) →
     (∀ m ∈ st.f2ds, m.document_id = doc_id → ∃ f ∈ st.files, f.id = m.file_id) →
     ∃ st2, renameRoute st doc_id new_name = (.ok, st2) ∧
       getDoc st2 doc_id = some { doc with name := new_name } ∧
       (f2dsOf st doc_id = [] → st2.files = st.files) ∧
       (∀ m ms, f2dsOf st doc_id = m :: ms →
         st2.files = st.files.map (fun f =>
           if f.id == m.file_id then { f with name := new_name } else f))) := by
  refine ⟨?_, ?_, ?_⟩
  · intro hne
    have hne' : (pathSuffix (strLower new_name) ==
        pathSuffix (strLower doc.name)) = false := beq_eq_false_iff_ne.mpr hne
    simp [renameRoute, hdoc, hne']
  · intro hsuf hdup
    have hsuf' : (pathSuffix (strLower new_name) ==
        pathSuffix (strLower doc.name)) = true := beq_iff_eq.mpr hsuf
    rcases hdup with ⟨d, hdmem, _, hdkb, hdname⟩
    have hany : st.docs.any (fun d => d.name == new_name && d.kb_id == doc.kb_id) =
        true := List.any_eq_true.mpr ⟨d, hdmem, by simp [hdkb, hdname]⟩
    simp [renameRoute, hdoc, hsuf', hany]
  · intro hsuf hnodup hmap
    have hsuf' : (pathSuffix (strLower new_name) ==
        pathSuffix (strLower doc.name)) = true := beq_iff_eq.mpr hsuf
    have hany : st.docs.any (fun d => d.name == new_name && d.kb_id == doc.kb_id) =
        false := by
      rw [← Bool.not_eq_true, List.any_eq_true]
      rintro ⟨d, hdmem, hd⟩
      simp only [Bool.and_eq_true, beq_iff_eq] at hd
      exact hnodup d hdmem hd.2 hd.1
    have hany1 : st.docs.any (fun d => d.id == doc_id) = true :=
      docs_any_of_getDoc st doc_id doc hdoc
    have hdoc1 : getDoc (updateDoc st doc_id
        (fun d => { d with name := new_name })).2 doc_id =
        some { doc with name := new_name } := by
      rw [getDoc_update st doc_id (fun d => { d with name := new_name })
        (fun _ => rfl), hdoc]
      rfl
    have he1 : (updateDoc st doc_id
        (fun d => { d with name := new_name })).1 = true := hany1
    have hsc : f2dsOf (updateDoc st doc_id
        (fun d => { d with name := new_name })).2 doc_id = f2dsOf st doc_id := rfl
    rcases hcase : f2dsOf st doc_id with _ | ⟨m, ms⟩
    · refine ⟨(updateDoc st doc_id (fun d => { d with name := new_name })).2,
        ?_, hdoc1, fun _ => rfl, ?_⟩
      · rw [renameRoute, hdoc]
        simp only [hsuf', Bool.not_true, Bool.false_eq_true, if_false, hany,
          if_false, he1, if_true]
        rw [hsc]
        simp only [hcase]
      · intro m ms hms
        exact absurd hms (by simp)
    · have hmmem : m ∈ st.f2ds ∧ (m.document_id == doc_id) = true := by
        have : m ∈ f2dsOf st doc_id := by rw [hcase]; exact List.mem_cons_self m ms
        exact List.mem_filter.mp this
      rcases hmap m hmmem.1 (beq_iff_eq.mp hmmem.2) with ⟨f0, hf0mem, hf0id⟩
      have hfind : (st.files.find? (fun f => f.id == m.file_id)).isSome := by
        rw [List.find?_isSome]
        exact ⟨f0, hf0mem, beq_iff_eq.mpr hf0id⟩
      rcases hfile : st.files.find? (fun f => f.id == m.file_id) with _ | file
      · rw [hfile] at hfind; simp at hfind
      · have hfid : file.id = m.file_id := by
          have h2 := List.find?_some hfile
          exact beq_iff_eq.mp h2
        have hfilesc : (updateDoc st doc_id
            (fun d => { d with name := new_name })).2.files.find?
            (fun f => f.id == m.file_id) = some file := hfile
        refine ⟨{ (updateDoc st doc_id (fun d => { d with name := new_name })).2
            with files := st.files.map (fun f =>
            if f.id == file.id then { f with name := new_name } else f) },
          ?_, hdoc1, ?_, ?_⟩
        · rw [renameRoute, hdoc]
          simp only [hsuf', Bool.not_true, Bool.false_eq_true, if_false, hany,
            if_false, he1, if_true]
          rw [hsc]
          simp only [hcase, hfilesc]
          rfl
        · intro hnil
          exact absurd hnil (by simp)
        · intro m2 ms2 hms2
          have hm2 : m2 = m := by injection hms2 with h1 _; exact h1.symm
          subst hm2
          show st.files.map _ = st.files.map _
          rw [hfid]

/-- Witness for C5 at a concrete state: renaming y.pdf to z.pdf with
a mirrored file present. -/
theorem rename_spec_witness :
    getDoc wSt ("Y") = some wDoc ∧
    ((pathSuffix (strLower ("z.pdf")) ≠ pathSuffix (strLower wDoc.name) →
      renameRoute wSt ("Y") ("z.pdf") =
        (.jsonError ("The extension of file can't be changed"), wSt)) ∧
    (pathSuffix (strLower ("z.pdf")) = pathSuffix (strLower wDoc.name) →
     (∃ d ∈ wSt.docs, d.id ≠ wDoc.id ∧ d.kb_id = wDoc.kb_id ∧ d.name = ("z.pdf")) →
      renameRoute wSt ("Y") ("z.pdf") =
        (.dataError ("Duplicated document name in the same knowledgebase."), wSt)) ∧
    (pathSuffix (strLower ("z.pdf")) = pathSuffix (strLower wDoc.name) →
     (∀ d ∈ wSt.docs, d.kb_id = wDoc.kb_id → d.name ≠ ("z.pdf")) →
     (∀ m ∈ wSt.f2ds, m.document_id = ("Y") → ∃ f ∈ wSt.files, f.id = m.file_id) →
     ∃ st2, renameRoute wSt ("Y") ("z.pdf") = (.ok, st2) ∧
       getDoc st2 ("Y") = some { wDoc with name := ("z.pdf") } ∧
       (f2dsOf wSt ("Y") = [] → st2.files = wSt.files) ∧
       (∀ m ms, f2dsOf wSt ("Y") = m :: ms →
         st2.files = wSt.files.map (fun f =>
           if f.id == m.file_id then { f with name := ("z.pdf") } else f)))) :=
  ⟨by decide, rename_spec wSt ("Y") ("z.pdf") wDoc (by decide)⟩

/-! ## Frame lemmas for the run route -/

theorem runLoop_docs_kbs (ids : List String) (tr : String) : ∀ st : St,
    (runLoop st ids tr).2.docs = st.docs ∧ (runLoop st ids tr).2.kbs = st.kbs := by
  induction ids with
  | nil => intro st; exact ⟨rfl, rfl⟩
  | cons id rest ih =>
    intro st
    rw [runLoop]
    dsimp only
    split
    · exact ⟨rfl, rfl⟩
    · split
      · split
        · exact ⟨rfl, rfl⟩
        · split
          · exact ⟨rfl, rfl⟩
          · exact ih _
      · exact ih _

theorem runLoop_tasks_sub (ids : List String) (tr : String) : ∀ st : St,
    ∀ tk ∈ (runLoop st ids tr).2.tasks, tk ∈ st.tasks := by
  induction ids with
  | nil => intro st tk htk; exact htk
  | cons id rest ih =>
    intro st tk htk
    rw [runLoop] at htk
    dsimp only at htk
    split at htk
    · exact htk
    · split at htk
      · split at htk
        · exact (List.mem_filter.mp htk).1
        · split at htk
          · exact (List.mem_filter.mp htk).1
          · have h2 := ih _ tk htk
            exact (List.mem_filter.mp h2).1
      · have h2 := ih _ tk htk
        exact h2

theorem runLoop_index_sub (ids : List String) (tr : String) : ∀ st : St,
    ∀ e ∈ (runLoop st ids tr).2.index, e ∈ st.index := by
  induction ids with
  | nil => intro st e he; exact he
  | cons id rest ih =>
    intro st e he
    rw [runLoop] at he
    dsimp only at he
    split at he
    · exact he
    · split at he
      · split at he
        · exact (List.mem_filter.mp he).1
        · split at he
          · exact (List.mem_filter.mp he).1
          · have h2 := ih _ e he
            exact (List.mem_filter.mp h2).1
      · have h2 := ih _ e he
        exact (List.mem_filter.mp h2).1

/-- The parse job the run route enqueues for a document id: the
current registry row, its tenant, and its current blob address
(bucket = knowledge-base id, key = stored location). -/
def runJob (st : St) (id : String) : Option Job :=
  (getDoc st id).bind (fun d => (get_tenant_id st id).map (fun t =>
    { doc := d, tenant_id := t, bucket := d.kb_id, key := d.location }))

theorem runLoop_cons_running (st : St) (id : String) (rest : List String)
    (d : Doc) (t : String)
    (hdoc : getDoc st id = some d) (hten : get_tenant_id st id = some t) :
    runLoop st (id :: rest) RUNNING =
      runLoop (queue_tasks { deleteIndexByDoc st t id with tasks := (deleteIndexByDoc st t id).tasks.filter (fun tk => !(tk.doc_id == id)) } d t d.kb_id d.location) rest RUNNING := by
  have hdoc2 : getDoc { deleteIndexByDoc st t id with tasks := (deleteIndexByDoc st t id).tasks.filter (fun tk => !(tk.doc_id == id)) } id = some d := hdoc
  have hid : d.id = id := getDoc_id st id d hdoc
  have haddr : get_minio_address { deleteIndexByDoc st t id with tasks := (deleteIndexByDoc st t id).tasks.filter (fun tk => !(tk.doc_id == id)) } d.id = some (d.kb_id, d.location) := by
    show (getDoc _ d.id).map _ = _
    rw [hid, hdoc2]
    rfl
  rw [runLoop]
  dsimp only
  simp only [hten, beq_self_eq_true, if_true, hdoc2, haddr]

theorem runLoop_cons_other (st : St) (id : String) (rest : List String)
    (tr t : String) (htr : (tr == RUNNING) = false)
    (hten : get_tenant_id st id = some t) :
    runLoop st (id :: rest) tr = runLoop (deleteIndexByDoc st t id) rest tr := by
  rw [runLoop]
  dsimp only
  simp only [hten, htr, Bool.false_eq_true, if_false]

/-- C2 (amended): for every batch of document ids whose documents and
tenants resolve, run with trigger RUNNING returns ok, leaves every
registry row untouched (in particular no status is written), clears
the Task rows of each id, clears each id's entries from its tenant's
index, and appends to the queue exactly one parse job per id whose
snapshot and blob address (bucket = kb id, key = location) come from
that id's current registry row. -/
theorem run_running_spec (ids : List String) : ∀ st : St,
    (∀ id ∈ ids, (getDoc st id).isSome ∧ (get_tenant_id st id).isSome) →
    (runRoute st ids RUNNING).1 = .ok ∧
    (runRoute st ids RUNNING).2.docs = st.docs ∧
    (∀ id ∈ ids, ∀ tk ∈ (runRoute st ids RUNNING).2.tasks, tk.doc_id ≠ id) ∧
    (∀ id ∈ ids, ∀ t, get_tenant_id st id = some t →
      ∀ e ∈ (runRoute st ids RUNNING).2.index, ¬(e.tenant_id = t ∧ e.doc_id = id)) ∧
    (runRoute st ids RUNNING).2.queue = st.queue ++ ids.filterMap (runJob st) := by
  induction ids with
  | nil =>
    intro st _
    exact ⟨rfl, rfl, by simp, by simp, by simp [runRoute, runLoop]⟩
  | cons id rest ih =>
    intro st h
    obtain ⟨hd, ht⟩ := h id (List.mem_cons_self id rest)
    rcases hdoc : getDoc st id with _ | d
    · rw [hdoc] at hd; simp at hd
    rcases hten : get_tenant_id st id with _ | t
    · rw [hten] at ht; simp at ht
    have hjob : runJob st id = some { doc := d, tenant_id := t, bucket := d.kb_id, key := d.location } := by
      simp [runJob, hdoc, hten]
    simp only [runRoute] at ih ⊢
    rw [runLoop_cons_running st id rest d t hdoc hten]
    set stQ : St := queue_tasks { deleteIndexByDoc st t id with tasks := (deleteIndexByDoc st t id).tasks.filter (fun tk => !(tk.doc_id == id)) } d t d.kb_id d.location with hstQ
    have hrest : ∀ id0 ∈ rest, (getDoc stQ id0).isSome ∧ (get_tenant_id stQ id0).isSome :=
      fun id0 hm => h id0 (List.mem_cons_of_mem id hm)
    obtain ⟨ihr, ihdocs, ihtasks, ihindex, ihqueue⟩ := ih stQ hrest
    refine ⟨ihr, ihdocs, ?_, ?_, ?_⟩
    · intro id0 hid0 tk htk
      rcases List.mem_cons.mp hid0 with h0 | h0
      · subst h0
        have h2 := runLoop_tasks_sub rest RUNNING stQ tk htk
        have h3 : tk ∈ st.tasks.filter (fun tk => !(tk.doc_id == id0)) := h2
        have h4 := (List.mem_filter.mp h3).2
        simp at h4
        exact h4
      · exact ihtasks id0 h0 tk htk
    · intro id0 hid0 t0 ht0 e he
      rcases List.mem_cons.mp hid0 with h0 | h0
      · subst h0
        have ht0' : t0 = t := by rw [hten] at ht0; exact (Option.some.inj ht0).symm
        subst ht0'
        have h2 := runLoop_index_sub rest RUNNING stQ e he
        have h3 : e ∈ st.index.filter (fun e => !(e.tenant_id == t0 && e.doc_id == id0)) := h2
        have h4 := (List.mem_filter.mp h3).2
        simp at h4
        intro hc
        rcases h4 with h4 | h4
        · exact h4 hc.1
        · exact h4 hc.2
      · exact ihindex id0 h0 t0 ht0 e he
    · rw [ihqueue]
      have hfun : runJob stQ = runJob st := rfl
      rw [hfun]
      have hq : stQ.queue = st.queue ++
          [({ doc := d, tenant_id := t, bucket := d.kb_id, key := d.location } : Job)] := rfl
      rw [hq, List.filterMap_cons, hjob, List.append_assoc]
      rfl

/-- C3 (amended): for every batch of ids whose tenants resolve, run
with a trigger other than RUNNING returns ok and deletes no Task
rows, enqueues nothing and writes no registry row, but it does clear
each id's SearchIndex entries (the deleteByQuery runs before the
trigger test); index entries matching no processed id survive. -/
theorem run_other_trigger_spec (ids : List String) (tr : String)
    (htr : tr ≠ RUNNING) : ∀ st : St,
    (∀ id ∈ ids, (get_tenant_id st id).isSome) →
    (runRoute st ids tr).1 = .ok ∧
    (runRoute st ids tr).2.docs = st.docs ∧
    (runRoute st ids tr).2.tasks = st.tasks ∧
    (runRoute st ids tr).2.queue = st.queue ∧
    (∀ id ∈ ids, ∀ t, get_tenant_id st id = some t →
      ∀ e ∈ (runRoute st ids tr).2.index, ¬(e.tenant_id = t ∧ e.doc_id = id)) ∧
    (∀ e ∈ st.index, (∀ id ∈ ids, ∀ t, get_tenant_id st id = some t →
      ¬(e.tenant_id = t ∧ e.doc_id = id)) → e ∈ (runRoute st ids tr).2.index) := by
  have htr' : (tr == RUNNING) = false := beq_eq_false_iff_ne.mpr htr
  induction ids with
  | nil =>
    intro st _
    exact ⟨rfl, rfl, rfl, rfl, by simp, fun e he _ => he⟩
  | cons id rest ih =>
    intro st h
    have ht := h id (List.mem_cons_self id rest)
    rcases hten : get_tenant_id st id with _ | t
    · rw [hten] at ht; simp at ht
    simp only [runRoute] at ih ⊢
    rw [runLoop_cons_other st id rest tr t htr' hten]
    set stD : St := deleteIndexByDoc st t id with hstD
    have hrest : ∀ id0 ∈ rest, (get_tenant_id stD id0).isSome :=
      fun id0 hm => h id0 (List.mem_cons_of_mem id hm)
    obtain ⟨ihr, ihdocs, ihtasks, ihqueue, ihindex, ihframe⟩ := ih stD hrest
    refine ⟨ihr, ihdocs, ihtasks, ihqueue, ?_, ?_⟩
    · intro id0 hid0 t0 ht0 e he
      rcases List.mem_cons.mp hid0 with h0 | h0
      · subst h0
        have ht0' : t0 = t := by rw [hten] at ht0; exact (Option.some.inj ht0).symm
        subst ht0'
        have h2 := runLoop_index_sub rest tr stD e he
        have h3 : e ∈ st.index.filter (fun e => !(e.tenant_id == t0 && e.doc_id == id0)) := h2
        have h4 := (List.mem_filter.mp h3).2
        simp at h4
        intro hc
        rcases h4 with h4 | h4
        · exact h4 hc.1
        · exact h4 hc.2
      · exact ihindex id0 h0 t0 ht0 e he
    · intro e he hsafe
      have hkeep : e ∈ stD.index := by
        show e ∈ st.index.filter (fun e => !(e.tenant_id == t && e.doc_id == id))
        refine List.mem_filter.mpr ⟨he, ?_⟩
        have hs := hsafe id (List.mem_cons_self id rest) t hten
        cases hcb : (e.tenant_id == t && e.doc_id == id)
        · rfl
        · exfalso
          simp only [Bool.and_eq_true, beq_iff_eq] at hcb
          exact hs ⟨hcb.1, hcb.2⟩
      exact ihframe e hkeep (fun id0 hm t0 ht0 =>
        hsafe id0 (List.mem_cons_of_mem id hm) t0 ht0)

/-- Counterexample for C2 as stated: run with trigger RUNNING on a
concrete document whose run state is UNSTART returns ok but leaves
the run state at UNSTART — the route never writes the status the
claim says it sets. -/
theorem run_running_no_status_change_cex :
    (runRoute wSt [("Y")] RUNNING).1 = ApiResult.ok ∧
    (getDoc (runRoute wSt [("Y")] RUNNING).2 ("Y")).map Doc.run = some UNSTART ∧
    UNSTART ≠ RUNNING := by decide

/-- Witness for the amended C2 at a concrete state. -/
theorem run_running_spec_witness :
    (∀ id ∈ [("Y")], (getDoc wSt id).isSome ∧ (get_tenant_id wSt id).isSome) ∧
    ((runRoute wSt [("Y")] RUNNING).1 = .ok ∧
     (runRoute wSt [("Y")] RUNNING).2.docs = wSt.docs ∧
     (∀ id ∈ [("Y")], ∀ tk ∈ (runRoute wSt [("Y")] RUNNING).2.tasks, tk.doc_id ≠ id) ∧
     (∀ id ∈ [("Y")], ∀ t, get_tenant_id wSt id = some t →
       ∀ e ∈ (runRoute wSt [("Y")] RUNNING).2.index, ¬(e.tenant_id = t ∧ e.doc_id = id)) ∧
     (runRoute wSt [("Y")] RUNNING).2.queue = wSt.queue ++ ([("Y")].filterMap (runJob wSt))) :=
  ⟨by decide, run_running_spec [("Y")] wSt (by decide)⟩

/-- Counterexample for C3 as stated: run with the cancel trigger on a
concrete state with one index entry for the document deletes that
entry — the SearchIndex is not left unchanged. -/
theorem run_cancel_clears_index_cex :
    wSt.index = [⟨("t1"), ("Y"), 1⟩] ∧
    (runRoute wSt [("Y")] CANCEL).2.index = [] := by decide

/-- Witness for the amended C3 at a concrete state with the cancel
trigger. -/
theorem run_other_trigger_spec_witness :
    CANCEL ≠ RUNNING ∧
    (∀ id ∈ [("Y")], (get_tenant_id wSt id).isSome) ∧
    ((runRoute wSt [("Y")] CANCEL).1 = .ok ∧
     (runRoute wSt [("Y")] CANCEL).2.docs = wSt.docs ∧
     (runRoute wSt [("Y")] CANCEL).2.tasks = wSt.tasks ∧
     (runRoute wSt [("Y")] CANCEL).2.queue = wSt.queue ∧
     (∀ id ∈ [("Y")], ∀ t, get_tenant_id wSt id = some t →
       ∀ e ∈ (runRoute wSt [("Y")] CANCEL).2.index, ¬(e.tenant_id = t ∧ e.doc_id = id)) ∧
     (∀ e ∈ wSt.index, (∀ id ∈ [("Y")], ∀ t, get_tenant_id wSt id = some t →
       ¬(e.tenant_id = t ∧ e.doc_id = id)) → e ∈ (runRoute wSt [("Y")] CANCEL).2.index)) :=
  ⟨by decide, by decide, run_other_trigger_spec [("Y")] CANCEL (by decide) wSt (by decide)⟩

/-! ## Lemmas for the rm route -/

theorem append_ne_empty (a b : String) (hb : b ≠ ("")) : a ++ b ≠ ("") := by
  intro hc
  have hlen : (a ++ b).length = 0 := by rw [hc]; rfl
  rw [String.length_append] at hlen
  have hb0 : b.data.length = 0 := by
    have hb1 : b.length = 0 := by omega
    exact hb1
  exact hb (congrArg String.mk (List.eq_nil_of_length_eq_zero hb0))

theorem rmOne_docs_sub (st : St) (id : String) :
    ∀ x ∈ (rmOne st id).2.docs, x ∈ st.docs := by
  intro x hx
  rw [rmOne] at hx
  dsimp only at hx
  split at hx
  · exact hx
  · split at hx
    · exact hx
    · split at hx
      · exact hx
      · split at hx
        · split at hx
          · exact (List.mem_filter.mp hx).1
          · exact (List.mem_filter.mp hx).1
        · exact (List.mem_filter.mp hx).1

theorem rmLoop_docs_sub (ids : List String) : ∀ (st : St) (errors : String),
    ∀ x ∈ (rmLoop st ids errors).2.docs, x ∈ st.docs := by
  induction ids with
  | nil => intro st errors x hx; exact hx
  | cons id rest ih =>
    intro st errors x hx
    rw [rmLoop] at hx
    split at hx
    · next hstep =>
      have h3 : x ∈ (rmOne st id).2.docs := by rw [hstep]; exact hx
      exact rmOne_docs_sub st id x h3
    · next hstep =>
      have h2 := ih _ _ x hx
      have h3 : x ∈ (rmOne st id).2.docs := by rw [hstep]; exact h2
      exact rmOne_docs_sub st id x h3
    · next hstep =>
      have h2 := ih _ _ x hx
      have h3 : x ∈ (rmOne st id).2.docs := by rw [hstep]; exact h2
      exact rmOne_docs_sub st id x h3

/-- What one rm iteration does to a present document with a
resolvable tenant: it never aborts; it raises the subscript error
exactly when the document has no File2Document mapping; in either
case the registry row is removed and the knowledge bases and the
surviving mappings are preserved. -/
theorem rmOne_present_spec (st : St) (id : String) (d : Doc) (t : String)
    (hdoc : getDoc st id = some d) (hten : get_tenant_id st id = some t) :
    ∃ stR, (rmOne st id = (.raised ("list index out of range"), stR) ∧ f2dsOf st id = [] ∨
            rmOne st id = (.okStep, stR) ∧ f2dsOf st id ≠ []) ∧
      stR.docs = st.docs.filter (fun x => !(x.id == id)) ∧
      stR.kbs = st.kbs ∧
      (∀ m ∈ stR.f2ds, m ∈ st.f2ds) := by
  have hid : d.id = id := getDoc_id st id d hdoc
  have haddr : get_minio_address st id = some (d.kb_id, d.location) := by
    show (getDoc st id).map _ = _
    rw [hdoc]
    rfl
  have hrem : (remove_document st d t).1 = true := by
    show st.docs.any (fun x => x.id == d.id) = true
    rw [hid]
    exact docs_any_of_getDoc st id d hdoc
  have hsc : f2dsOf (remove_document st d t).2 id = f2dsOf st id := rfl
  have hdocs : (remove_document st d t).2.docs =
      st.docs.filter (fun x => !(x.id == id)) := by
    show st.docs.filter (fun x => !(x.id == d.id)) = _
    rw [hid]
  by_cases hcase : f2dsOf st id = []
  · refine ⟨(remove_document st d t).2, Or.inl ⟨?_, hcase⟩, hdocs, rfl, fun m hm => hm⟩
    rw [rmOne]
    dsimp only
    simp only [hdoc, hten, haddr, hrem, if_true, hsc, hcase]
  · rcases hm : f2dsOf st id with _ | ⟨m, ms⟩
    · exact absurd hm hcase
    · have hR : rmOne st id = (.okStep, { (remove_document st d t).2 with files := (remove_document st d t).2.files.filter (fun f => !(f.source_type == ("knowledgebase") && f.id == m.file_id)), f2ds := (remove_document st d t).2.f2ds.filter (fun x => !(x.document_id == id)), blobs := (remove_document st d t).2.blobs.filter (fun bk => !(bk == (d.kb_id, d.location))) }) := by
        rw [rmOne]
        dsimp only
        simp only [hdoc, hten, haddr, hrem, if_true, hsc, hm]
      refine ⟨_, Or.inr ⟨hR, by simp⟩, hdocs, rfl, ?_⟩
      intro x hx
      have hx2 : x ∈ st.f2ds := (List.mem_filter.mp hx).1
      exact hx2

theorem rmLoop_getDoc_none (rest : List String) (stR : St) (errors id : String)
    (hnone : ∀ x ∈ stR.docs, (x.id == id) = false) :
    getDoc (rmLoop stR rest errors).2 id = none := by
  show (rmLoop stR rest errors).2.docs.find? (fun x => x.id == id) = none
  rw [List.find?_eq_none]
  intro x hx
  have h2 := rmLoop_docs_sub rest stR errors x hx
  simp [hnone x h2]

/-- The invariant of rm's loop under present documents and
resolvable tenants, generalized over the error accumulator. -/
theorem rmLoop_spec (ids : List String) : ∀ (st : St) (errors : String),
    ids.Nodup →
    (∀ id ∈ ids, (getDoc st id).isSome ∧ (get_tenant_id st id).isSome) →
    ((rmLoop st ids errors).1 = .ok ∧ errors = ("") ∨
      ∃ s2, (rmLoop st ids errors).1 = .jsonError s2 ∧ s2 ≠ ("")) ∧
    (∀ id ∈ ids, getDoc (rmLoop st ids errors).2 id = none) ∧
    ((errors ≠ ("") ∨ ∃ id ∈ ids, f2dsOf st id = []) →
      ∃ s2, (rmLoop st ids errors).1 = .jsonError s2 ∧ s2 ≠ ("")) := by
  induction ids with
  | nil =>
    intro st errors _ _
    refine ⟨?_, by simp, ?_⟩
    · by_cases he : errors = ("")
      · left
        refine ⟨?_, he⟩
        rw [rmLoop]
        simp [he]
      · right
        refine ⟨errors, ?_, he⟩
        rw [rmLoop]
        simp [beq_eq_false_iff_ne.mpr he]
    · intro hcond
      rcases hcond with he | ⟨id, hid, _⟩
      · refine ⟨errors, ?_, he⟩
        rw [rmLoop]
        simp [beq_eq_false_iff_ne.mpr he]
      · exact absurd hid (by simp)
  | cons id rest ih =>
    intro st errors hnd h
    obtain ⟨hdS, htS⟩ := h id (List.mem_cons_self id rest)
    rcases hdoc : getDoc st id with _ | d
    · rw [hdoc] at hdS; simp at hdS
    rcases hten : get_tenant_id st id with _ | t
    · rw [hten] at htS; simp at htS
    obtain ⟨stR, hout, hdocsR, hkbsR, hf2dsR⟩ := rmOne_present_spec st id d t hdoc hten
    have hndr := (List.nodup_cons.mp hnd).2
    have hnin := (List.nodup_cons.mp hnd).1
    have hgd : ∀ id2, id2 ≠ id → getDoc stR id2 = getDoc st id2 := by
      intro id2 hne2
      show stR.docs.find? (fun x => x.id == id2) = st.docs.find? (fun x => x.id == id2)
      rw [hdocsR]
      apply find?_filter_keep
      intro x hx
      rw [beq_iff_eq.mp hx, beq_eq_false_iff_ne.mpr hne2]
      rfl
    have hgt : ∀ id2, id2 ≠ id → get_tenant_id stR id2 = get_tenant_id st id2 := by
      intro id2 hne2
      rw [get_tenant_id, get_tenant_id, hgd id2 hne2]
      cases hgd2 : getDoc st id2 with
      | none => rfl
      | some dd =>
        simp only [Option.some_bind]
        congr 1
        show stR.kbs.find? _ = st.kbs.find? _
        rw [hkbsR]
    have hf2dnil : ∀ id2, f2dsOf st id2 = [] → f2dsOf stR id2 = [] := by
      intro id2 hnil
      rw [List.eq_nil_iff_forall_not_mem] at hnil ⊢
      intro m hm
      have h1 := List.mem_filter.mp hm
      exact hnil m (List.mem_filter.mpr ⟨hf2dsR m h1.1, h1.2⟩)
    have hrest : ∀ id2 ∈ rest, (getDoc stR id2).isSome ∧ (get_tenant_id stR id2).isSome := by
      intro id2 hm
      have hne2 : id2 ≠ id := fun hh => hnin (hh ▸ hm)
      rw [hgd id2 hne2, hgt id2 hne2]
      exact h id2 (List.mem_cons_of_mem id hm)
    have hnone : ∀ x ∈ stR.docs, (x.id == id) = false := by
      intro x hx
      rw [hdocsR] at hx
      have h3 := (List.mem_filter.mp hx).2
      simpa using h3
    rcases hout with ⟨hR, _⟩ | ⟨hR, hnemap⟩
    · -- the subscript on the empty mapping list raised; the message is collected
      have hstep : rmLoop st (id :: rest) errors =
          rmLoop stR rest (errors ++ ("list index out of range")) := by
        rw [rmLoop]
        simp only [hR]
      obtain ⟨_, ih2, ih3⟩ := ih stR (errors ++ ("list index out of range")) hndr hrest
      have hjson := ih3 (Or.inl (append_ne_empty errors _ (by decide)))
      refine ⟨?_, ?_, ?_⟩
      · right; rw [hstep]; exact hjson
      · intro id2 hm
        rw [hstep]
        rcases List.mem_cons.mp hm with h0 | h0
        · subst h0; exact rmLoop_getDoc_none rest stR _ id2 hnone
        · exact ih2 id2 h0
      · intro _
        rw [hstep]
        exact hjson
    · -- clean pass for this id
      have hstep : rmLoop st (id :: rest) errors = rmLoop stR rest errors := by
        rw [rmLoop]
        simp only [hR]
      obtain ⟨ih1, ih2, ih3⟩ := ih stR errors hndr hrest
      refine ⟨?_, ?_, ?_⟩
      · rw [hstep]; exact ih1
      · intro id2 hm
        rw [hstep]
        rcases List.mem_cons.mp hm with h0 | h0
        · subst h0; exact rmLoop_getDoc_none rest stR _ id2 hnone
        · exact ih2 id2 h0
      · intro hcond
        rw [hstep]
        apply ih3
        rcases hcond with he | ⟨id2, hm2, hnil2⟩
        · exact Or.inl he
        · rcases List.mem_cons.mp hm2 with h0 | h0
          · subst h0; exact absurd hnil2 hnemap
          · exact Or.inr ⟨id2, h0, hf2dnil id2 hnil2⟩

/-- C1 (amended): when every requested id resolves to a document and
a tenant, the rm batch never aborts early: every id's registry row
ends deleted, the outcome is ok or one aggregated non-empty error,
and any per-id exception (here: a missing File2Document mapping,
which makes the f2d subscript raise) is collected into that
aggregated error instead of stopping the loop. Document-lookup,
tenant-resolution and removal failures, by contrast, return
immediately (see the counterexample). -/
theorem rm_spec (st : St) (ids : List String)
    (hnd : ids.Nodup)
    (h : ∀ id ∈ ids, (getDoc st id).isSome ∧ (get_tenant_id st id).isSome) :
    ((rm st ids).1 = .ok ∨ ∃ s, (rm st ids).1 = .jsonError s ∧ s ≠ ("")) ∧
    (∀ id ∈ ids, getDoc (rm st ids).2 id = none) ∧
    ((∃ id ∈ ids, f2dsOf st id = []) →
      ∃ s, (rm st ids).1 = .jsonError s ∧ s ≠ ("")) := by
  obtain ⟨h1, h2, h3⟩ := rmLoop_spec ids st ("") hnd h
  refine ⟨?_, h2, fun hx => h3 (Or.inr hx)⟩
  rcases h1 with ⟨hok, _⟩ | ⟨s2, hj, hs2⟩
  · exact Or.inl hok
  · exact Or.inr ⟨s2, hj, hs2⟩

/-- Counterexample for C1 as stated: in a batch of two ids where the
first id has no document row, rm returns that single lookup error
immediately and the second document is still present afterwards —
the failure aborted the batch instead of being collected, and the
other id was never deleted. -/
theorem rm_abort_on_lookup_failure_cex :
    rm wSt [("X"), ("Y")] = (ApiResult.dataError ("Document not found!"), wSt) ∧
    getDoc wSt ("X") = none ∧
    getDoc wSt ("Y") = some wDoc := by decide

/-! ## Lemmas for run_v2 -/

theorem coerceField_int_spec (o o2 : Option PVal)
    (h : coerceField intField o = some o2) :
    ∀ v, o = some v → ∃ n, pyInt v = some n ∧ o2 = some (.pInt n) := by
  intro v hv
  subst hv
  have h2 : ((pyInt v).map PVal.pInt).map some = some o2 := h
  rcases hn : pyInt v with _ | n
  · rw [hn] at h2; exact absurd h2 (by simp)
  · rw [hn] at h2
    have h3 : some (some (PVal.pInt n)) = some o2 := h2
    exact ⟨n, rfl, (Option.some.inj h3).symm⟩

theorem coerceField_float_spec (o o2 : Option PVal)
    (h : coerceField floatField o = some o2) :
    ∀ v, o = some v → ∃ f, pyFloat v = some f ∧ o2 = some (.pFloat f) := by
  intro v hv
  subst hv
  have h2 : ((pyFloat v).map PVal.pFloat).map some = some o2 := h
  rcases hf : pyFloat v with _ | f
  · rw [hf] at h2; exact absurd h2 (by simp)
  · rw [hf] at h2
    have h3 : some (some (PVal.pFloat f)) = some o2 := h2
    exact ⟨f, rfl, (Option.some.inj h3).symm⟩

theorem coerceRaptor_spec (r r2 : RaptorConf) (h : coerceRaptor r = some r2) :
    (∀ v, r.max_cluster = some v → ∃ n, pyInt v = some n ∧ r2.max_cluster = some (.pInt n)) ∧
    (∀ v, r.max_token = some v → ∃ n, pyInt v = some n ∧ r2.max_token = some (.pInt n)) ∧
    (∀ v, r.random_seed = some v → ∃ n, pyInt v = some n ∧ r2.random_seed = some (.pInt n)) ∧
    (∀ v, r.threshold = some v → ∃ f, pyFloat v = some f ∧ r2.threshold = some (.pFloat f)) := by
  rw [coerceRaptor] at h
  rcases h1 : coerceField intField r.max_cluster with _ | mc
  · rw [h1] at h; simp at h
  rcases h2 : coerceField intField r.max_token with _ | mt
  · rw [h1, h2] at h; simp at h
  rcases h3 : coerceField intField r.random_seed with _ | rs
  · rw [h1, h2, h3] at h; simp at h
  rcases h4 : coerceField floatField r.threshold with _ | th
  · rw [h1, h2, h3, h4] at h; simp at h
  rw [h1, h2, h3, h4] at h
  have h5 : some (⟨mc, mt, rs, th⟩ : RaptorConf) = some r2 := h
  have hr2 : r2 = ⟨mc, mt, rs, th⟩ := (Option.some.inj h5).symm
  subst hr2
  refine ⟨?_, ?_, ?_, ?_⟩
  · intro v hv
    obtain ⟨n, hn, ho⟩ := coerceField_int_spec r.max_cluster mc h1 v hv
    exact ⟨n, hn, ho⟩
  · intro v hv
    obtain ⟨n, hn, ho⟩ := coerceField_int_spec r.max_token mt h2 v hv
    exact ⟨n, hn, ho⟩
  · intro v hv
    obtain ⟨n, hn, ho⟩ := coerceField_int_spec r.random_seed rs h3 v hv
    exact ⟨n, hn, ho⟩
  · intro v hv
    obtain ⟨f, hf, ho⟩ := coerceField_float_spec r.threshold th h4 v hv
    exact ⟨f, hf, ho⟩

/-- C8: for a run_v2 document whose parser_config coerces cleanly,
the job actually handed to queue_tasks_v2 carries the coerced
config: chunk_token_num and the raptor cluster, token and seed
fields as integers, the raptor threshold as a float, and the
language stamped to English. -/
theorem run_v2_normalization
    (st : St) (tenant_id kb_id : String) (d : DocV2) (pc pc2 : ParserConf)
    (hpc : d.parser_config = some pc) (hco : coerceConf pc = some pc2) :
    (run_v2Loop st tenant_id kb_id [d]).1 = .ok ∧
    (run_v2Loop st tenant_id kb_id [d]).2.2 = [{ doc_id := d.id, url := d.url, name := d.url, parser_id := d.parser_id, parser_config := some pc2, language := ("English"), tenant_id := tenant_id, kb_id := kb_id }] ∧
    (∀ v, pc.chunk_token_num = some v → ∃ n, pyInt v = some n ∧ pc2.chunk_token_num = some (.pInt n)) ∧
    (pc.raptor = none → pc2.raptor = none) ∧
    (∀ r, pc.raptor = some r → ∃ r2, pc2.raptor = some r2 ∧
      (∀ v, r.max_cluster = some v → ∃ n, pyInt v = some n ∧ r2.max_cluster = some (.pInt n)) ∧
      (∀ v, r.max_token = some v → ∃ n, pyInt v = some n ∧ r2.max_token = some (.pInt n)) ∧
      (∀ v, r.random_seed = some v → ∃ n, pyInt v = some n ∧ r2.random_seed = some (.pInt n)) ∧
      (∀ v, r.threshold = some v → ∃ f, pyFloat v = some f ∧ r2.threshold = some (.pFloat f))) := by
  have hloop : run_v2Loop st tenant_id kb_id [d] =
      (.ok, deleteIndexByDoc st tenant_id d.id,
       [{ doc_id := d.id, url := d.url, name := d.url, parser_id := d.parser_id, parser_config := some pc2, language := ("English"), tenant_id := tenant_id, kb_id := kb_id }]) := by
    rw [run_v2Loop]
    dsimp only
    rw [hpc]
    have hcfg : (coerceConf pc).map some = some (some pc2) := by rw [hco]; rfl
    simp only [hcfg]
    rw [run_v2Loop]
  refine ⟨by rw [hloop], by rw [hloop], ?_, ?_, ?_⟩
  · intro v hv
    rw [coerceConf] at hco
    rcases h1 : coerceField intField pc.chunk_token_num with _ | ctn
    · rw [h1] at hco; simp at hco
    rw [h1] at hco
    obtain ⟨n, hn, ho⟩ := coerceField_int_spec pc.chunk_token_num ctn h1 v hv
    refine ⟨n, hn, ?_⟩
    rcases hr : pc.raptor with _ | r
    · rw [hr] at hco
      have h6 : some (⟨ctn, none⟩ : ParserConf) = some pc2 := hco
      have := Option.some.inj h6
      rw [← this, ← ho]
    · rw [hr] at hco
      have h7 : (coerceRaptor r).map (fun r2 => (⟨ctn, some r2⟩ : ParserConf)) = some pc2 := hco
      rcases hcr : coerceRaptor r with _ | r2
      · rw [hcr] at h7; exact absurd h7 (by simp)
      rw [hcr] at h7
      have h6 : some (⟨ctn, some r2⟩ : ParserConf) = some pc2 := h7
      have := Option.some.inj h6
      rw [← this, ← ho]
  · intro hnone
    rw [coerceConf] at hco
    rcases h1 : coerceField intField pc.chunk_token_num with _ | ctn
    · rw [h1] at hco; simp at hco
    rw [h1, hnone] at hco
    have h6 : some (⟨ctn, none⟩ : ParserConf) = some pc2 := hco
    have := Option.some.inj h6
    rw [← this]
  · intro r hr
    rw [coerceConf] at hco
    rcases h1 : coerceField intField pc.chunk_token_num with _ | ctn
    · rw [h1] at hco; simp at hco
    rw [h1, hr] at hco
    have h7 : (coerceRaptor r).map (fun r2 => (⟨ctn, some r2⟩ : ParserConf)) = some pc2 := hco
    rcases hcr : coerceRaptor r with _ | r2
    · rw [hcr] at h7; exact absurd h7 (by simp)
    rw [hcr] at h7
    have h6 : some (⟨ctn, some r2⟩ : ParserConf) = some pc2 := h7
    have hpc2 := Option.some.inj h6
    refine ⟨r2, by rw [← hpc2], ?_⟩
    exact coerceRaptor_spec r r2 hcr

/-- A concrete parser_config with string-typed numeric fields, as an
external caller would submit. -/
def wPc : ParserConf :=
  ⟨some (.pStr ("128")), some ⟨some (.pStr ("64")), some (.pInt 256), some (.pStr ("0")), some (.pStr ("0.1"))⟩⟩

/-- Its coerced form. -/
def wPc2 : ParserConf :=
  ⟨some (.pInt 128), some ⟨some (.pInt 64), some (.pInt 256), some (.pInt 0), some (.pFloat ⟨1, 1⟩)⟩⟩

/-- A concrete run_v2 document entry carrying wPc. -/
def wDocV2 : DocV2 := ⟨"Y", "http://a", some ("naive"), some wPc⟩

/-- Witness for C8 at the concrete config. -/
theorem run_v2_normalization_witness :
    wDocV2.parser_config = some wPc ∧ coerceConf wPc = some wPc2 ∧
    ((run_v2Loop wSt ("t1") ("kb1") [wDocV2]).1 = .ok ∧
     (run_v2Loop wSt ("t1") ("kb1") [wDocV2]).2.2 = [{ doc_id := wDocV2.id, url := wDocV2.url, name := wDocV2.url, parser_id := wDocV2.parser_id, parser_config := some wPc2, language := ("English"), tenant_id := ("t1"), kb_id := ("kb1") }] ∧
     (∀ v, wPc.chunk_token_num = some v → ∃ n, pyInt v = some n ∧ wPc2.chunk_token_num = some (.pInt n)) ∧
     (wPc.raptor = none → wPc2.raptor = none) ∧
     (∀ r, wPc.raptor = some r → ∃ r2, wPc2.raptor = some r2 ∧
       (∀ v, r.max_cluster = some v → ∃ n, pyInt v = some n ∧ r2.max_cluster = some (.pInt n)) ∧
       (∀ v, r.max_token = some v → ∃ n, pyInt v = some n ∧ r2.max_token = some (.pInt n)) ∧
       (∀ v, r.random_seed = some v → ∃ n, pyInt v = some n ∧ r2.random_seed = some (.pInt n)) ∧
       (∀ v, r.threshold = some v → ∃ f, pyFloat v = some f ∧ r2.threshold = some (.pFloat f)))) :=
  ⟨by decide, by decide,
   run_v2_normalization wSt ("t1") ("kb1") wDocV2 wPc wPc2 (by decide) (by decide)⟩

/-! ## Lemmas for the web_crawl blob-key probe -/

/-- k underscores. -/
def underscores (k : Nat) : String := String.mk (List.replicate k '_')

theorem str_data_append (a b : String) : (a ++ b).data = a.data ++ b.data := by
  cases a
  cases b
  rfl

theorem str_ext (a b : String) (h : a.data = b.data) : a = b := congrArg String.mk h

theorem append_underscores_zero (loc : String) : loc ++ underscores 0 = loc := by
  apply str_ext
  rw [str_data_append]
  show loc.data ++ [] = loc.data
  simp

theorem append_underscores_succ (loc : String) (j : Nat) :
    (loc ++ ("_")) ++ underscores j = loc ++ underscores (j + 1) := by
  apply str_ext
  rw [str_data_append, str_data_append, str_data_append]
  show (loc.data ++ ['_']) ++ List.replicate j '_' =
    loc.data ++ List.replicate (j + 1) '_'
  rw [List.append_assoc]
  rfl

theorem underscores_length (k : Nat) : (underscores k).length = k := by
  show (List.replicate k '_').length = k
  simp

/-- What the probe loop computes: a key of the form loc followed by
k underscores, every shorter candidate being occupied, and the
result itself free unless the fuel ran out. -/
theorem probeLoc_spec (store : List String) : ∀ (fuel : Nat) (loc : String),
    ∃ k, k ≤ fuel ∧ probeLoc store loc fuel = loc ++ underscores k ∧
      (∀ j, j < k → loc ++ underscores j ∈ store) ∧
      (k = fuel ∨ loc ++ underscores k ∉ store) := by
  intro fuel
  induction fuel with
  | zero =>
    intro loc
    exact ⟨0, Nat.le_refl 0, (append_underscores_zero loc).symm,
      fun j hj => absurd hj (Nat.not_lt_zero j), Or.inl rfl⟩
  | succ f ihf =>
    intro loc
    by_cases hmem : store.contains loc = true
    · obtain ⟨k, hk, heq, hchain, hlast⟩ := ihf (loc ++ ("_"))
      refine ⟨k + 1, by omega, ?_, ?_, ?_⟩
      · rw [probeLoc, if_pos hmem, heq, append_underscores_succ]
      · intro j hj
        cases j with
        | zero =>
          rw [append_underscores_zero]
          exact List.mem_of_elem_eq_true hmem
        | succ j2 =>
          rw [← append_underscores_succ]
          exact hchain j2 (by omega)
      · rcases hlast with h | h
        · exact Or.inl (by omega)
        · right
          rw [← append_underscores_succ]
          exact h
    · refine ⟨0, Nat.zero_le _, ?_,
        fun j hj => absurd hj (Nat.not_lt_zero j), Or.inr ?_⟩
      · rw [probeLoc, if_neg hmem, append_underscores_zero]
      · rw [append_underscores_zero]
        intro hc
        exact hmem (List.elem_eq_true_of_mem hc)

/-- With more fuel than the store holds keys, the probe's key is not
in the store: were the fuel exhausted, the chain of candidates would
be length+1 distinct members of the store. -/
theorem probeLoc_not_mem (store : List String) (loc : String) :
    probeLoc store loc (store.length + 1) ∉ store := by
  obtain ⟨k, _, heq, hchain, hlast⟩ := probeLoc_spec store (store.length + 1) loc
  rcases hlast with hkf | hfree
  · exfalso
    subst hkf
    have hinj : Function.Injective (fun j => loc ++ underscores j) := by
      intro a b hab
      have hlen := congrArg String.length hab
      simp only [String.length_append, underscores_length] at hlen
      omega
    have hnodup : ((List.range (store.length + 1)).map
        (fun j => loc ++ underscores j)).Nodup :=
      (List.nodup_range _).map hinj
    have hsub : ((List.range (store.length + 1)).map
        (fun j => loc ++ underscores j)) ⊆ store := by
      intro x hx
      rcases List.mem_map.mp hx with ⟨j, hj, rfl⟩
      exact hchain j (List.mem_range.mp hj)
    have hle := (List.subperm_of_subset hnodup hsub).length_le
    simp at hle
  · rw [heq]
    exact hfree

theorem find?_append_singleton {α} (p : α → Bool) (l : List α) (x : α)
    (hl : ∀ y ∈ l, p y = false) (hx : p x = true) :
    (l ++ [x]).find? p = some x := by
  induction l with
  | nil => simp [List.find?_cons_of_pos, hx]
  | cons a t ihl =>
    rw [List.cons_append, List.find?_cons_of_neg]
    · exact ihl (fun y hy => hl y (List.mem_cons_of_mem a hy))
    · simp [hl a (List.mem_cons_self a t)]

theorem getDoc_docs_append (st2 : St) (docId : String) (l : List Doc) (x : Doc)
    (hdocs : st2.docs = l ++ [x])
    (hl : ∀ y ∈ l, (y.id == docId) = false) (hx : (x.id == docId) = true) :
    getDoc st2 docId = some x := by
  show st2.docs.find? _ = some x
  rw [hdocs]
  exact find?_append_singleton _ l x hl hx

/-- C7: the web_crawl ingestion core resolves the blob key by
probing (every shorter candidate of the underscore chain is already
present, the chosen key is not), performs exactly the blob write
followed by the registry insert in that order, and the inserted row
points at exactly the key that was written. -/
theorem web_crawl_blob_before_insert (st : St) (kb : KB)
    (docId fileId filename filetype : String) (blobSize : Int)
    (hft : filetype ≠ ("other"))
    (hfresh : ∀ d ∈ st.docs, d.id ≠ docId) :
    ∃ L, L ∉ bucketKeys st kb.id ∧
      (∃ k, L = filename ++ underscores k ∧
        ∀ j, j < k → (filename ++ underscores j) ∈ bucketKeys st kb.id) ∧
      (web_crawl_core st kb docId fileId filename filetype blobSize).1 = .ok ∧
      (web_crawl_core st kb docId fileId filename filetype blobSize).2.2 =
        [CrawlEvent.putBlob kb.id L, CrawlEvent.insertDoc docId L] ∧
      (kb.id, L) ∈ (web_crawl_core st kb docId fileId filename filetype blobSize).2.1.blobs ∧
      (∃ dnew, getDoc (web_crawl_core st kb docId fileId filename filetype blobSize).2.1 docId = some dnew ∧
        dnew.location = L ∧ dnew.id = docId) := by
  have hft2 : (filetype == ("other")) = false := beq_eq_false_iff_ne.mpr hft
  obtain ⟨k, _, heq, hchain, _⟩ :=
    probeLoc_spec (bucketKeys st kb.id) (bucketKeys st kb.id).length.succ filename
  have hfree := probeLoc_not_mem (bucketKeys st kb.id) filename
  refine ⟨probeLoc (bucketKeys st kb.id) filename ((bucketKeys st kb.id).length + 1),
    hfree, ⟨k, heq, hchain⟩, ?_, ?_, ?_, ?_⟩
  · rw [web_crawl_core]
    simp only [hft2, Bool.false_eq_true, if_false]
  · rw [web_crawl_core]
    simp only [hft2, Bool.false_eq_true, if_false]
  · rw [web_crawl_core]
    simp only [hft2, Bool.false_eq_true, if_false]
    exact List.mem_append.mpr (Or.inr (List.mem_singleton.mpr rfl))
  · rw [web_crawl_core]
    simp only [hft2, Bool.false_eq_true, if_false]
    exact ⟨_, getDoc_docs_append _ docId st.docs _ rfl
      (fun y hy => beq_eq_false_iff_ne.mpr (hfresh y hy)) (beq_self_eq_true docId),
      rfl, rfl⟩

/-- Witness for C7: crawling a second y.pdf into a bucket that
already holds the key y.pdf. -/
theorem web_crawl_blob_before_insert_witness :
    ("pdf" : String) ≠ ("other") ∧
    (∀ d ∈ wSt.docs, d.id ≠ ("D2")) ∧
    (∃ L, L ∉ bucketKeys wSt wKb.id ∧
      (∃ k, L = ("y.pdf") ++ underscores k ∧
        ∀ j, j < k → (("y.pdf") ++ underscores j) ∈ bucketKeys wSt wKb.id) ∧
      (web_crawl_core wSt wKb ("D2") ("F2") ("y.pdf") ("pdf") 9).1 = .ok ∧
      (web_crawl_core wSt wKb ("D2") ("F2") ("y.pdf") ("pdf") 9).2.2 =
        [CrawlEvent.putBlob wKb.id L, CrawlEvent.insertDoc ("D2") L] ∧
      (wKb.id, L) ∈ (web_crawl_core wSt wKb ("D2") ("F2") ("y.pdf") ("pdf") 9).2.1.blobs ∧
      (∃ dnew, getDoc (web_crawl_core wSt wKb ("D2") ("F2") ("y.pdf") ("pdf") 9).2.1 ("D2") = some dnew ∧
        dnew.location = L ∧ dnew.id = ("D2"))) :=
  ⟨by decide, by decide,
   web_crawl_blob_before_insert wSt wKb ("D2") ("F2") ("y.pdf") ("pdf") 9
     (by decide) (by decide)⟩


/-- Witness for the amended C1: a two-id batch where the second id
has no File2Document mapping; both rows are deleted and the
subscript error is aggregated. -/
theorem rm_spec_witness :
    ([("Y"), ("Z")] : List String).Nodup ∧
    (∀ id ∈ [("Y"), ("Z")], (getDoc wSt2 id).isSome ∧ (get_tenant_id wSt2 id).isSome) ∧
    (((rm wSt2 [("Y"), ("Z")]).1 = .ok ∨
      ∃ s, (rm wSt2 [("Y"), ("Z")]).1 = .jsonError s ∧ s ≠ ("")) ∧
     (∀ id ∈ [("Y"), ("Z")], getDoc (rm wSt2 [("Y"), ("Z")]).2 id = none) ∧
     ((∃ id ∈ [("Y"), ("Z")], f2dsOf wSt2 id = []) →
       ∃ s, (rm wSt2 [("Y"), ("Z")]).1 = .jsonError s ∧ s ≠ (""))) :=
  ⟨by decide, by decide, rm_spec wSt2 [("Y"), ("Z")] (by decide) (by decide)⟩

end Ragflow
